import Mathlib

set_option maxRecDepth 8000

/-!
Verification of the unattached-swim classifier and the record aggregator of
the swim-data-tool repository.  The Python sources
(`swim_data_tool/commands/classify.py`, `swim_data_tool/models/events.py`,
`swim_data_tool/services/record_generator.py`) are shallowly embedded below:
Python strings are `String` / `List Char`, floats are exact rationals
(`Option ℚ` with `none` standing for `float('inf')`), pandas timestamps are
day numbers in `ℤ`, and fallible parses return `Option`.
-/

/-- Lowercase one character, as Python `str.lower` acts on the ASCII
affiliation texts handled by the classifier. -/
def lowerChar (c : Char) : Char :=
  if 65 ≤ c.toNat ∧ c.toNat ≤ 90 then Char.ofNat (c.toNat + 32) else c

/-- Character list of `s.lower()`. -/
def lowerStr (s : String) : List Char := s.toList.map lowerChar

/-- Python whitespace, as stripped by `str.strip()`. -/
def isPySpace (c : Char) : Bool :=
  c = ' ' || c = '\t' || c = '\n' || c = '\r' || c = '\x0b' || c = '\x0c'

/-- Python `str.strip()` on a character list. -/
def trimL (l : List Char) : List Char :=
  ((l.dropWhile isPySpace).reverse.dropWhile isPySpace).reverse

/-- `isPrefixB needle l` holds when `needle` starts `l`. -/
def isPrefixB : List Char → List Char → Bool
  | [], _ => true
  | _ :: _, [] => false
  | a :: as, b :: bs => a == b && isPrefixB as bs

/-- Python substring containment `needle in hay`. -/
def containsSub : List Char → List Char → Bool
  | [], needle => needle.isEmpty
  | a :: t, needle => isPrefixB needle (a :: t) || containsSub t needle

/-- Python `str.split(sep)` for a one-character separator. -/
def splitOnChar (sep : Char) : List Char → List (List Char)
  | [] => [[]]
  | c :: t =>
    if c = sep then [] :: splitOnChar sep t
    else
      match splitOnChar sep t with
      | [] => [[c]]
      | h :: r => (c :: h) :: r

/-- Python single-character containment `c in s` (used for `":" in
time_str`). -/
def containsChar : List Char → Char → Bool
  | [], _ => false
  | a :: t, c => a == c || containsChar t c

/-- Numeric value of a digit string (most significant digit first). -/
def digitsToNat (l : List Char) : ℕ :=
  l.foldl (fun acc c => acc * 10 + (c.toNat - 48)) 0

/-- Python `int(str)`: optional sign and a nonempty run of digits after
stripping whitespace; anything else raises, modelled as `none`. -/
def pyInt (s : String) : Option ℤ :=
  match trimL s.toList with
  | '-' :: r => if r ≠ [] ∧ r.all Char.isDigit then some (-(digitsToNat r : ℤ)) else none
  | '+' :: r => if r ≠ [] ∧ r.all Char.isDigit then some ((digitsToNat r : ℤ) : ℤ) else none
  | r => if r ≠ [] ∧ r.all Char.isDigit then some ((digitsToNat r : ℤ) : ℤ) else none

/-- Exact value of the decimal literal `ip.fp`. -/
def decToRat (ip fp : List Char) : ℚ :=
  (digitsToNat ip : ℚ) + (digitsToNat fp : ℚ) / (10 : ℚ) ^ fp.length

/-- Unsigned decimal literal accepted by Python `float`: digits with an
optional decimal point, at least one digit overall. -/
def pyFloatCore (l : List Char) : Option ℚ :=
  match splitOnChar '.' l with
  | [ip] => if ip ≠ [] ∧ ip.all Char.isDigit then some ((digitsToNat ip : ℚ)) else none
  | [ip, fp] =>
    if (ip ≠ [] ∨ fp ≠ []) ∧ ip.all Char.isDigit ∧ fp.all Char.isDigit then
      if fp = [] then some ((digitsToNat ip : ℚ)) else some (decToRat ip fp)
    else none
  | _ => none

/-- Python `float(str)` on plain decimal literals (optional sign, digits,
optional decimal point), the forms swim times take; floats are idealised as
exact rationals.  Failure (`ValueError`) is `none`. -/
def pyFloat (l : List Char) : Option ℚ :=
  match trimL l with
  | '-' :: r => (pyFloatCore r).map (fun q => -q)
  | '+' :: r => pyFloatCore r
  | r => pyFloatCore r

/-- Day number of a proleptic-Gregorian civil date (Hinnant's
`days_from_civil`), the day-resolution model of a pandas timestamp. -/
def daysFromCivil (y m d : ℤ) : ℤ :=
  let yr := if m ≤ 2 then y - 1 else y
  let era := (if 0 ≤ yr then yr else yr - 399) / 400
  let yoe := yr - era * 400
  let doy := (153 * (if 2 < m then m - 3 else m + 9) + 2) / 5 + d - 1
  let doe := yoe * 365 + yoe / 4 - yoe / 100 + doy
  era * 146097 + doe - 719468

/-- Modelled: `pd.to_datetime` restricted to ISO `YYYY-MM-DD` date strings,
mapped to civil day numbers; any other string is a parse failure (`none`),
matching the `except` arms around each `pd.to_datetime` call in
`classify.py`. -/
def pdToDatetime (s : String) : Option ℤ :=
  match splitOnChar '-' (trimL s.toList) with
  | [y, m, d] =>
    if y.length = 4 ∧ m.length = 2 ∧ d.length = 2 ∧
        y.all Char.isDigit ∧ m.all Char.isDigit ∧ d.all Char.isDigit ∧
        1 ≤ digitsToNat m ∧ digitsToNat m ≤ 12 ∧
        1 ≤ digitsToNat d ∧ digitsToNat d ≤ 31 then
      some (daysFromCivil (digitsToNat y) (digitsToNat m) (digitsToNat d))
    else none
  | _ => none

/-- USA Swimming transfer rule effective date (`TRANSFER_RULE_CHANGE_DATE =
datetime(2023, 1, 1)`). -/
def TRANSFER_RULE_CHANGE_DATE : ℤ := daysFromCivil 2023 1 1

/-- `POST_2023_TRANSFER_DAYS = 60`. -/
def POST_2023_TRANSFER_DAYS : ℤ := 60

/-- `PRE_2023_TRANSFER_DAYS = 120`. -/
def PRE_2023_TRANSFER_DAYS : ℤ := 120

/-- One row of a swimmer CSV, with the columns the classifier reads. -/
structure Swim where
  team : String
  swimDate : String
  age : String
deriving DecidableEq

/-- `ClassifyUnattachedCommand._is_team_swim`: the affiliation text contains
some configured team name, case-insensitively. -/
def is_team_swim (teamNames : List String) (team : String) : Bool :=
  teamNames.any (fun name => containsSub (lowerStr team) (lowerStr name))

/-- `ClassifyUnattachedCommand._is_unattached`. -/
def is_unattached (team : String) : Bool :=
  containsSub (lowerStr team) "unattached".toList

/-- `ClassifyUnattachedCommand._is_high_school`. -/
def is_high_school (team : String) : Bool :=
  containsSub (lowerStr team) "high school".toList ||
    containsSub (lowerStr team) "hs-".toList ||
    containsSub (lowerStr team) " hs ".toList

/-- `ClassifyUnattachedCommand._is_college_age`: `18 <= int(row["Age"]) <= 22`,
`False` on a parse failure. -/
def is_college_age (age : String) : Bool :=
  match pyInt age with
  | some a => decide (18 ≤ a ∧ a ≤ 22)
  | none => false

/-- Window length selected by the swim's own date in
`ClassifyUnattachedCommand._is_probationary`. -/
def windowDays (swimDate : ℤ) : ℤ :=
  if TRANSFER_RULE_CHANGE_DATE ≤ swimDate then POST_2023_TRANSFER_DAYS
  else PRE_2023_TRANSFER_DAYS

/-- `ClassifyUnattachedCommand._is_probationary`: the swim date lies in
`[first_team_date - window_days, first_team_date)`. -/
def is_probationary (swimDate firstTeamDate : ℤ) : Bool :=
  decide (firstTeamDate - windowDays swimDate ≤ swimDate ∧ swimDate < firstTeamDate)

/-- The values of the `classification_category` column. -/
inductive Category
  | official
  | highSchool
  | probationary
  | college
  | miscUnattached
  | otherClub
  | unknown
deriving DecidableEq

/-- The `elif self._is_college_age(...)` / `else` tail of the unattached
branch of `_classify_swimmer`. -/
def collegeOrMisc (s : Swim) : Category :=
  if is_college_age s.age then .college else .miscUnattached

/-- Category assigned to one swim by the loop body of
`ClassifyUnattachedCommand._classify_swimmer`, given the first-team-swim
index and parsed first-team date computed beforehand and the current
`seen_other_club` flag. -/
def classifyCat (teamNames : List String) (ftIdx : Option ℕ) (ftDate : Option ℤ)
    (seen : Bool) (idx : ℕ) (s : Swim) : Category :=
  if is_team_swim teamNames s.team then .official
  else if is_unattached s.team then
    if is_high_school s.team then .highSchool
    else
      match ftIdx, ftDate with
      | some i, some F =>
        if idx < i ∧ seen then
          match pdToDatetime s.swimDate with
          | some d => if is_probationary d F then .probationary else .miscUnattached
          | none => .miscUnattached
        else collegeOrMisc s
      | _, _ => collegeOrMisc s
  else if trimL s.team.toList ≠ [] then .otherClub
  else .unknown

/-- Update of the `seen_other_club` flag after processing one swim in
`_classify_swimmer`: set inside the other-club branch when the swim precedes
the first team swim (or there is none). -/
def nextSeen (teamNames : List String) (ftIdx : Option ℕ) (seen : Bool)
    (idx : ℕ) (s : Swim) : Bool :=
  if is_team_swim teamNames s.team then seen
  else if is_unattached s.team then seen
  else if trimL s.team.toList ≠ [] then
    match ftIdx with
    | none => true
    | some i => if idx < i then true else seen
  else seen

/-- The classification loop of `_classify_swimmer`: walk the career in
order, recording each swim's category and threading `seen_other_club`. -/
def classifyFrom (teamNames : List String) (ftIdx : Option ℕ) (ftDate : Option ℤ) :
    ℕ → Bool → List Swim → List (Swim × Category)
  | _, _, [] => []
  | idx, seen, s :: rest =>
    (s, classifyCat teamNames ftIdx ftDate seen idx s) ::
      classifyFrom teamNames ftIdx ftDate (idx + 1)
        (nextSeen teamNames ftIdx seen idx s) rest

/-- Index of the first team swim (`team_indices[0]` in `_classify_swimmer`). -/
def firstTeamIdx (teamNames : List String) (career : List Swim) : Option ℕ :=
  career.findIdx? (fun s => is_team_swim teamNames s.team)

/-- Parsed date of the first team swim; `none` when there is no team swim or
its date fails to parse. -/
def firstTeamDate (teamNames : List String) (career : List Swim) : Option ℤ :=
  match firstTeamIdx teamNames career with
  | none => none
  | some i =>
    match career.get? i with
    | some s => pdToDatetime s.swimDate
    | none => none

/-- `_classify_swimmer` on one career: every swim paired with its category. -/
def classifySwimmer (teamNames : List String) (career : List Swim) :
    List (Swim × Category) :=
  classifyFrom teamNames (firstTeamIdx teamNames career)
    (firstTeamDate teamNames career) 0 false career

/-- An include/exclude decision (the values admitted for the four
classification flags by the CLI and the interactive prompt). -/
inductive Decision
  | includeSwim
  | excludeSwim
deriving DecidableEq

/-- The Classification Decision Set: one decision per ambiguous category. -/
structure DecisionSet where
  high_school : Decision
  probationary : Decision
  college : Decision
  misc_unattached : Decision
deriving DecidableEq

/-- `classification_decision` assigned to each category by
`_classify_swimmer`: official swims are always included, other-club and
unknown swims always excluded, the four ambiguous categories follow the
decision set. -/
def decisionOf (ds : DecisionSet) : Category → Decision
  | .official => .includeSwim
  | .highSchool => ds.high_school
  | .probationary => ds.probationary
  | .college => ds.college
  | .miscUnattached => ds.misc_unattached
  | .otherClub => .excludeSwim
  | .unknown => .excludeSwim

/-- The `official` partition (`classification_decision == "include"`). -/
def officialPart (teamNames : List String) (ds : DecisionSet) (career : List Swim) :
    List (Swim × Category) :=
  (classifySwimmer teamNames career).filter
    (fun p => decisionOf ds p.2 == Decision.includeSwim)

/-- The `excluded` partition (`classification_decision == "exclude"`). -/
def excludedPart (teamNames : List String) (ds : DecisionSet) (career : List Swim) :
    List (Swim × Category) :=
  (classifySwimmer teamNames career).filter
    (fun p => decisionOf ds p.2 == Decision.excludeSwim)

/-- Both partitions of one career, as written to `official/` and
`excluded/` by `ClassifyUnattachedCommand.run`. -/
def runClassification (teamNames : List String) (ds : DecisionSet)
    (career : List Swim) : List (Swim × Category) × List (Swim × Category) :=
  (officialPart teamNames ds career, excludedPart teamNames ds career)

/-- Category assigned to one unattached swim by the statistics pass
`ClassifyUnattachedCommand._analyze_swims` (its `elif` chain differs from
`_classify_swimmer`: the before-first-team-swim branch does not require
`seen_other_club`). -/
def analyzeCat (ftIdx : Option ℕ) (ftDate : Option ℤ) (seen : Bool) (idx : ℕ)
    (s : Swim) : Category :=
  if is_high_school s.team then .highSchool
  else
    match ftIdx, ftDate with
    | some i, some F =>
      if idx < i then
        if seen then
          match pdToDatetime s.swimDate with
          | some d => if is_probationary d F then .probationary else .miscUnattached
          | none => .miscUnattached
        else .miscUnattached
      else collegeOrMisc s
    | _, _ => collegeOrMisc s

/-- Update of `seen_other_club` in `_analyze_swims` (the branch is guarded
by `not is_team and team.strip()`). -/
def analyzeNextSeen (teamNames : List String) (ftIdx : Option ℕ) (seen : Bool)
    (idx : ℕ) (s : Swim) : Bool :=
  if is_team_swim teamNames s.team then seen
  else if is_unattached s.team then seen
  else if !is_team_swim teamNames s.team && !(trimL s.team.toList).isEmpty then
    match ftIdx with
    | none => true
    | some i => if idx < i then true else seen
  else seen

/-- The per-swim loop of `_analyze_swims` over one career: `some c` when the
swim is unattached and categorised as `c`, `none` for team, other-club and
unknown swims (which the statistics pass does not put in the four unattached
buckets). -/
def analyzeFrom (teamNames : List String) (ftIdx : Option ℕ) (ftDate : Option ℤ) :
    ℕ → Bool → List Swim → List (Option Category)
  | _, _, [] => []
  | idx, seen, s :: rest =>
    (if is_team_swim teamNames s.team then none
     else if is_unattached s.team then some (analyzeCat ftIdx ftDate seen idx s)
     else none) ::
      analyzeFrom teamNames ftIdx ftDate (idx + 1)
        (analyzeNextSeen teamNames ftIdx seen idx s) rest

/-- `_analyze_swims` restricted to one career. -/
def analyzeSwimmer (teamNames : List String) (career : List Swim) :
    List (Option Category) :=
  analyzeFrom teamNames (firstTeamIdx teamNames career)
    (firstTeamDate teamNames career) 0 false career

/-- Per-category count reported by the statistics pass. -/
def analyzeCount (teamNames : List String) (career : List Swim) (c : Category) : ℕ :=
  (analyzeSwimmer teamNames career).countP (fun o => o == some c)

/-- Per-category count produced by `_classify_swimmer` (its `stats` dict). -/
def classifyCount (teamNames : List String) (career : List Swim) (c : Category) : ℕ :=
  (classifySwimmer teamNames career).countP (fun p => p.2 == c)

/-- Uppercase one ASCII character (`str.upper`). -/
def upperChar (c : Char) : Char :=
  if 97 ≤ c.toNat ∧ c.toNat ≤ 122 then Char.ofNat (c.toNat - 32) else c

/-- `str.upper` on a character list. -/
def upperL (l : List Char) : List Char := l.map upperChar

/-- `str.lower` on a character list. -/
def lowerL (l : List Char) : List Char := l.map lowerChar

/-- Helper of `splitWs`: accumulate the current word (reversed). -/
def splitWsAux : List Char → List Char → List (List Char)
  | cur, [] => if cur.isEmpty then [] else [cur.reverse]
  | cur, c :: t =>
    if isPySpace c then
      if cur.isEmpty then splitWsAux [] t else cur.reverse :: splitWsAux [] t
    else splitWsAux (c :: cur) t

/-- Python `str.split()` with no argument: split on whitespace runs,
dropping empty tokens. -/
def splitWs (l : List Char) : List (List Char) := splitWsAux [] l

/-- The `stroke_map` of `parse_api_event`, keyed by the upper-cased stroke
token. -/
def strokeOf (code : List Char) : Option (List Char) :=
  if code = "FR".toList then some "free".toList
  else if code = "BK".toList then some "back".toList
  else if code = "BACK".toList then some "back".toList
  else if code = "BR".toList then some "breast".toList
  else if code = "BREAST".toList then some "breast".toList
  else if code = "FL".toList then some "fly".toList
  else if code = "FLY".toList then some "fly".toList
  else if code = "IM".toList then some "im".toList
  else none

/-- `parse_api_event`: strip and split the event text on whitespace; fewer
than 3 tokens or an unknown stroke code is a null parse. -/
def parse_api_event (event_str : String) :
    Option (List Char × List Char × List Char) :=
  match splitWs (trimL event_str.toList) with
  | distance :: stroke :: course :: _ =>
    match strokeOf (upperL stroke) with
    | some st => some (distance, st, lowerL (upperL course))
    | none => none
  | _ => none

/-- `create_event_code`: `f"{distance}-{stroke}"`. -/
def create_event_code (distance stroke : List Char) : List Char :=
  distance ++ '-' :: stroke

/-- `convert_time_to_seconds` from `models/events.py`: `SS.hh`, `MM:SS.hh`
or `HH:MM:SS.hh`; any failure yields `float('inf')`, modelled as `none`. -/
def convert_time_to_seconds (time_str : String) : Option ℚ :=
  if time_str = "" then none
  else
    let l := trimL time_str.toList
    if containsChar l ':' then
      match splitOnChar ':' l with
      | [m, s] =>
        match pyFloat m, pyFloat s with
        | some qm, some qs => some (qm * 60 + qs)
        | _, _ => none
      | [h, m, s] =>
        match pyFloat h, pyFloat m, pyFloat s with
        | some qh, some qm, some qs => some (qh * 3600 + qm * 60 + qs)
        | _, _, _ => none
      | _ => none
    else pyFloat l

/-- `determine_age_group`: `int(float(age))` (truncation toward zero)
bucketed into the fixed bands; parse failure maps to "Open". -/
def determine_age_group (age : String) : List Char :=
  match pyFloat age.toList with
  | none => "Open".toList
  | some q =>
    let a : ℤ := q.num / (q.den : ℤ)
    if a ≤ 10 then "10U".toList
    else if a ≤ 12 then "11-12".toList
    else if a ≤ 14 then "13-14".toList
    else if a ≤ 16 then "15-16".toList
    else if a ≤ 18 then "17-18".toList
    else "Open".toList

/-- One row of the aggregator's DataFrame, with the columns
`parse_and_normalize_events` and the record queries read. -/
structure RawSwim where
  Name : String
  Event : String
  SwimTime : String
  Age : String
deriving DecidableEq

/-- `event_course` column added by `RecordGenerator.parse_and_normalize_events`. -/
def event_course (r : RawSwim) : Option (List Char) :=
  (parse_api_event r.Event).map (fun t => t.2.2)

/-- `event_code` column: built only when distance and stroke are nonempty. -/
def event_code (r : RawSwim) : Option (List Char) :=
  match parse_api_event r.Event with
  | some (d, st, _) =>
    if !d.isEmpty ∧ !st.isEmpty then some (create_event_code d st) else none
  | none => none

/-- Rows paired with their original DataFrame index (pandas row labels
survive filtering and sorting, recording original input order). -/
def indexed : ℕ → List RawSwim → List (ℕ × RawSwim)
  | _, [] => []
  | n, r :: t => (n, r) :: indexed (n + 1) t

/-- `time_seconds` column of an indexed row. -/
def timeSec (p : ℕ × RawSwim) : Option ℚ := convert_time_to_seconds p.2.SwimTime

/-- Float comparison `a <= b` with `none` playing `float('inf')`. -/
def timeLeB : Option ℚ → Option ℚ → Bool
  | none, none => true
  | none, some _ => false
  | some _, none => true
  | some a, some b => decide (a ≤ b)

/-- Float comparison `a < inf`: exactly the finite times. -/
def finiteTime : Option ℚ → Bool
  | none => false
  | some _ => true

/-- Row comparison used by `sort_values("time_seconds")`. -/
def rowLe (a b : ℕ × RawSwim) : Bool := timeLeB (timeSec a) (timeSec b)

/-- Insert a row into an already sorted list, before the first
not-smaller row (stable). -/
def insertRow (a : ℕ × RawSwim) : List (ℕ × RawSwim) → List (ℕ × RawSwim)
  | [] => [a]
  | b :: l => if rowLe a b then a :: b :: l else b :: insertRow a l

/-- Executable model of `DataFrame.sort_values("time_seconds")` (an
insertion sort).  Pandas performs this sort with numpy's default quicksort,
which is not stable, so only the sortedness and permutation properties of
this model reflect the program; no theorem below about the program relies
on its tie order. -/
def sortRows : List (ℕ × RawSwim) → List (ℕ × RawSwim)
  | [] => []
  | a :: l => insertRow a (sortRows l)

/-- `drop_duplicates(subset=["Name"], keep="first")`. -/
def dropDupNames : List String → List (ℕ × RawSwim) → List (ℕ × RawSwim)
  | _, [] => []
  | seen, r :: t =>
    if r.2.Name ∈ seen then dropDupNames seen t
    else r :: dropDupNames (r.2.Name :: seen) t

/-- `df[df["event_course"] == course]`. -/
def courseRows (rows : List RawSwim) (course : String) : List (ℕ × RawSwim) :=
  (indexed 0 rows).filter (fun p => event_course p.2 == some course.toList)

/-- `df_course[df_course["time_seconds"] < float("inf")]`. -/
def finiteRows (rows : List RawSwim) (course : String) : List (ℕ × RawSwim) :=
  (courseRows rows course).filter (fun p => finiteTime (timeSec p))

/-- `df_course[df_course["event_code"] == event_code]`: the per-event bucket
(all age groups) both record queries rank. -/
def eventRows (rows : List RawSwim) (course ev : String) : List (ℕ × RawSwim) :=
  (finiteRows rows course).filter (fun p => event_code p.2 == some ev.toList)

/-- `RecordGenerator.get_top_n_by_event`, the list computed for one event:
sort by time, keep each swimmer's first (fastest) row, take the head `n`. -/
def get_top_n_by_event (rows : List RawSwim) (course ev : String) (n : ℕ) :
    List (ℕ × RawSwim) :=
  (dropDupNames [] (sortRows (eventRows rows course ev))).take n

/-- The `df_age` bucket of `get_best_times_by_event`: "Open" keeps every
age, a specific age group filters on the `age_group` column. -/
def ageRows (rows : List RawSwim) (course ev ag : String) : List (ℕ × RawSwim) :=
  if ag = "Open" then eventRows rows course ev
  else (eventRows rows course ev).filter
    (fun p => determine_age_group p.2.Age == ag.toList)

/-- `RecordGenerator.get_best_times_by_event`, one (event, age-group) cell:
the overall best row after sorting and per-swimmer dedup, `none` when the
bucket is empty. -/
def get_best_time (rows : List RawSwim) (course ev ag : String) :
    Option (ℕ × RawSwim) :=
  (dropDupNames [] (sortRows (ageRows rows course ev ag))).head?

/-- Every swim of the (course, event, age-group) bucket, infinite times
included: the comparison set for best-time optimality. -/
def ageBucketAll (rows : List RawSwim) (course ev ag : String) :
    List (ℕ × RawSwim) :=
  (indexed 0 rows).filter (fun p =>
    event_course p.2 == some course.toList &&
      event_code p.2 == some ev.toList &&
      (ag == "Open" || determine_age_group p.2.Age == ag.toList))

/-- Invariant of the executable sort model: earlier in its output means
smaller-or-equal time, with equal times kept in original index order (a
property of this model only, used to extract sortedness facts). -/
def rowQ (a b : ℕ × RawSwim) : Prop :=
  rowLe a b = true ∧ (rowLe b a = true → a.1 < b.1)

/-- Spec-order labelling of an unattached swim at or after the first-team
index, following the spec text of step 2 word for word: HighSchool first,
then the probationary window test against the original first-team date
(with the `seen_other_club` requirement of step 1), then College, then
Misc.  Used to compare the code against the spec for swims after joining. -/
def specAfterJoinCat (seen : Bool) (F : ℤ) (s : Swim) : Category :=
  if is_high_school s.team then .highSchool
  else if seen &&
      (match pdToDatetime s.swimDate with
       | some d => is_probationary d F
       | none => false) then .probationary
  else collegeOrMisc s

example : pdToDatetime "2021-09-01" = some (daysFromCivil 2021 9 1) := by decide
example : daysFromCivil 2021 9 1 - daysFromCivil 2021 5 4 = 120 := by decide
example : daysFromCivil 2023 1 1 - daysFromCivil 2022 12 31 = 1 := by decide
example : daysFromCivil 2021 9 1 < TRANSFER_RULE_CHANGE_DATE := by decide
example : is_unattached "Unattached" = true := by decide
example : is_team_swim ["MyTeam"] "MYTEAM SWIM CLUB" = true := by decide
example : is_high_school "Unattached" = false := by decide
example :
    classifySwimmer ["MyTeam"]
      [⟨"Other Club", "2021-01-01", "12"⟩,
       ⟨"Unattached", "2021-06-01", "12"⟩,
       ⟨"MyTeam", "2021-09-01", "13"⟩] =
    [(⟨"Other Club", "2021-01-01", "12"⟩, .otherClub),
     (⟨"Unattached", "2021-06-01", "12"⟩, .probationary),
     (⟨"MyTeam", "2021-09-01", "13"⟩, .official)] := by decide
example : parse_api_event "50 FR SCY" =
    some ("50".toList, "free".toList, "scy".toList) := by decide
example : convert_time_to_seconds "21" = some ((21 : ℕ) : ℚ) := by decide
example : determine_age_group "12" = "11-12".toList := by decide
example :
    get_top_n_by_event
      [⟨"Jane", "50 FR SCY", "22", "12"⟩, ⟨"Ann", "50 FR SCY", "21", "13"⟩]
      "scy" "50-free" 10 =
    [(1, ⟨"Ann", "50 FR SCY", "21", "13"⟩), (0, ⟨"Jane", "50 FR SCY", "22", "12"⟩)] := by
  decide

/-- Every `Decision` is include or exclude. -/
theorem decision_dichotomy (d : Decision) :
    d = Decision.includeSwim ∨ d = Decision.excludeSwim := by
  cases d
  · exact Or.inl rfl
  · exact Or.inr rfl

/-- The classification loop returns the input swims in order. -/
theorem classifyFrom_map_fst (tn : List String) (fi : Option ℕ) (fd : Option ℤ) :
    ∀ (idx : ℕ) (seen : Bool) (l : List Swim),
      (classifyFrom tn fi fd idx seen l).map Prod.fst = l
  | _, _, [] => rfl
  | idx, seen, s :: rest => by
    simp [classifyFrom,
      classifyFrom_map_fst tn fi fd (idx + 1) (nextSeen tn fi seen idx s) rest]

/-- The excluded partition is the complement filter of the official one. -/
theorem excludedPart_eq_not_filter (tn : List String) (ds : DecisionSet)
    (career : List Swim) :
    excludedPart tn ds career = (classifySwimmer tn career).filter
      (fun p => !(decisionOf ds p.2 == Decision.includeSwim)) := by
  unfold excludedPart
  apply List.filter_congr
  intro p _
  cases h : decisionOf ds p.2 <;> simp [h]

/-- Claim C4: classification gives every swim exactly one decision from
include/exclude, and the official and excluded partitions together are
exactly the full career and are disjoint. -/
theorem partition_complete (teamNames : List String) (ds : DecisionSet)
    (career : List Swim) :
    (∀ c : Category, decisionOf ds c = Decision.includeSwim ∨
        decisionOf ds c = Decision.excludeSwim)
    ∧ (officialPart teamNames ds career ++ excludedPart teamNames ds career).Perm
        (classifySwimmer teamNames career)
    ∧ (classifySwimmer teamNames career).map Prod.fst = career
    ∧ ∀ p ∈ classifySwimmer teamNames career,
        (p ∈ officialPart teamNames ds career ↔
          p ∉ excludedPart teamNames ds career) := by
  refine ⟨?_, ?_, ?_, ?_⟩
  · intro c
    cases c
    all_goals first
      | exact Or.inl rfl
      | exact Or.inr rfl
      | exact decision_dichotomy _
  · rw [excludedPart_eq_not_filter]
    exact List.filter_append_perm _ _
  · exact classifyFrom_map_fst _ _ _ 0 false career
  · intro p hp
    simp only [officialPart, excludedPart, List.mem_filter, beq_iff_eq]
    cases hd : decisionOf ds p.2 <;> simp [hp, hd]

/-- Claim C5: classification is a function of the career, the decision set
and the configured team names — equal inputs give identical official and
excluded partitions. -/
theorem classification_deterministic (tn1 tn2 : List String)
    (ds1 ds2 : DecisionSet) (c1 c2 : List Swim)
    (htn : tn1 = tn2) (hds : ds1 = ds2) (hc : c1 = c2) :
    runClassification tn1 ds1 c1 = runClassification tn2 ds2 c2 := by
  subst htn
  subst hds
  subst hc
  rfl

/-- Witness for C5 at a concrete career and decision set. -/
theorem classification_deterministic_witness :
    runClassification ["MyTeam"]
      ⟨Decision.includeSwim, Decision.includeSwim, Decision.excludeSwim,
        Decision.excludeSwim⟩
      [⟨"Unattached", "2021-06-01", "12"⟩] =
    runClassification ["MyTeam"]
      ⟨Decision.includeSwim, Decision.includeSwim, Decision.excludeSwim,
        Decision.excludeSwim⟩
      [⟨"Unattached", "2021-06-01", "12"⟩] :=
  classification_deterministic _ _ _ _ _ _ rfl rfl rfl

/-- The college/misc tail never yields Probationary. -/
theorem collegeOrMisc_ne_probationary (s : Swim) :
    collegeOrMisc s ≠ Category.probationary := by
  unfold collegeOrMisc
  split <;> simp

/-- Claim C1: for an unattached, non-high-school swim before the first team
swim (first-team date `F` parsed), with `seen_other_club` true and a
parsable swim date `d`, the classifier labels it Probationary exactly when
`F - windowDays d ≤ d < F`, the window length being 60 days for `d` on or
after 2023-01-01 and 120 days before; and no swim dated before
`F - windowDays d` is ever labelled Probationary, whatever the flag. -/
theorem probationary_window_iff (teamNames : List String) (i : ℕ) (F : ℤ)
    (idx : ℕ) (s : Swim) (d : ℤ)
    (hteam : is_team_swim teamNames s.team = false)
    (hun : is_unattached s.team = true)
    (hhs : is_high_school s.team = false)
    (hidx : idx < i)
    (hd : pdToDatetime s.swimDate = some d) :
    (classifyCat teamNames (some i) (some F) true idx s = Category.probationary ↔
      F - windowDays d ≤ d ∧ d < F)
    ∧ ∀ (seen : Bool) (j : ℕ), d < F - windowDays d →
        classifyCat teamNames (some i) (some F) seen j s ≠ Category.probationary := by
  constructor
  · by_cases hw : F - windowDays d ≤ d ∧ d < F
    · simp [classifyCat, hteam, hun, hhs, hidx, hd, is_probationary, hw]
    · simp [classifyCat, hteam, hun, hhs, hidx, hd, is_probationary, hw]
  · intro seen j hlt
    have hnp : is_probationary d F = false := by
      have hcontra : ¬ (F - windowDays d ≤ d ∧ d < F) := by omega
      simpa [is_probationary] using hcontra
    simp only [classifyCat, hteam, hun, hhs, hd, hnp, Bool.false_eq_true,
      if_false]
    split <;> split <;> simp_all [collegeOrMisc_ne_probationary]

/-- Witness for C1: the 2021-06-01 unattached swim of spec scenario 1 is
inside the 120-day window before 2021-09-01 and is labelled Probationary. -/
theorem probationary_window_iff_witness :
    classifyCat ["MyTeam"] (some 2) (some (daysFromCivil 2021 9 1)) true 1
      ⟨"Unattached", "2021-06-01", "12"⟩ = Category.probationary :=
  (probationary_window_iff ["MyTeam"] 2 (daysFromCivil 2021 9 1) 1
      ⟨"Unattached", "2021-06-01", "12"⟩ (daysFromCivil 2021 6 1)
      (by decide) (by decide) (by decide) (by decide) (by decide)).1.mpr
    (by decide)

/-- Claim C2: an unattached swim at or after the first-team-swim index of a
chronologically ordered career (its date, when parsable, is not before the
first-team date `F`) is labelled exactly as the spec's step-2 priority order
prescribes, and — absent a high-school match — comes out College when the
age is in [18, 22] and MiscUnattached otherwise. -/
theorem after_join_priority (teamNames : List String) (i : ℕ) (F : ℤ)
    (seen : Bool) (idx : ℕ) (s : Swim)
    (hidx : i ≤ idx)
    (hteam : is_team_swim teamNames s.team = false)
    (hun : is_unattached s.team = true)
    (hdate : ∀ d, pdToDatetime s.swimDate = some d → F ≤ d) :
    classifyCat teamNames (some i) (some F) seen idx s = specAfterJoinCat seen F s
    ∧ (is_high_school s.team = false →
        classifyCat teamNames (some i) (some F) seen idx s =
          if is_college_age s.age then Category.college else Category.miscUnattached) := by
  have hni : ¬ (idx < i) := not_lt.mpr hidx
  have hwin : (match pdToDatetime s.swimDate with
      | some d => is_probationary d F
      | none => false) = false := by
    cases hpd : pdToDatetime s.swimDate with
    | none => rfl
    | some d =>
      have hFd : F ≤ d := hdate d hpd
      simp only [is_probationary]
      have : ¬ (F - windowDays d ≤ d ∧ d < F) := by omega
      simpa using this
  constructor
  · by_cases hhs : is_high_school s.team
    · simp [classifyCat, specAfterJoinCat, hteam, hun, hhs]
    · simp [classifyCat, specAfterJoinCat, hteam, hun, hhs, hni, hwin]
  · intro hhs
    simp [classifyCat, hteam, hun, hhs, hni, collegeOrMisc]

/-- Witness for C2: an unattached swim dated months after joining, age 19,
is labelled College. -/
theorem after_join_priority_witness :
    classifyCat ["MyTeam"] (some 0) (some (daysFromCivil 2021 9 1)) false 1
      ⟨"Unattached", "2022-01-15", "19"⟩ = Category.college := by
  have h := after_join_priority ["MyTeam"] 0 (daysFromCivil 2021 9 1) false 1
      ⟨"Unattached", "2022-01-15", "19"⟩ (by decide) (by decide) (by decide)
      (by
        intro d hd
        have h0 : pdToDatetime "2022-01-15" = some (daysFromCivil 2022 1 15) := by
          decide
        rw [h0] at hd
        cases hd
        decide)
  exact (h.2 (by decide)).trans (by decide)

/-- Counterexample for C3: the spec asserts the scenario-1 window is
`[2021-05-03, 2021-09-01)`, but a swim dated 2021-05-03 is outside the
code's 120-day window (which starts 2021-05-04) and is labelled
MiscUnattached, not Probationary. -/
theorem scenario1_window_counterexample :
    is_probationary (daysFromCivil 2021 5 3) (daysFromCivil 2021 9 1) = false ∧
    classifySwimmer ["MyTeam"]
      [⟨"Other Club", "2021-01-01", "12"⟩,
       ⟨"Unattached", "2021-05-03", "12"⟩,
       ⟨"MyTeam", "2021-09-01", "13"⟩] =
      [(⟨"Other Club", "2021-01-01", "12"⟩, Category.otherClub),
       (⟨"Unattached", "2021-05-03", "12"⟩, Category.miscUnattached),
       (⟨"MyTeam", "2021-09-01", "13"⟩, Category.official)] ∧
    Category.miscUnattached ≠ Category.probationary := by
  decide

/-- Claim C3 as amended: in spec scenario 1 the 120-day window before
2021-09-01 is `[2021-05-04, 2021-09-01)`; the 2021-06-01 unattached swim
falls inside it and is labelled Probationary. -/
theorem scenario1_amended :
    daysFromCivil 2021 9 1 - PRE_2023_TRANSFER_DAYS = daysFromCivil 2021 5 4 ∧
    windowDays (daysFromCivil 2021 6 1) = PRE_2023_TRANSFER_DAYS ∧
    is_probationary (daysFromCivil 2021 6 1) (daysFromCivil 2021 9 1) = true ∧
    classifySwimmer ["MyTeam"]
      [⟨"Other Club", "2021-01-01", "12"⟩,
       ⟨"Unattached", "2021-06-01", "12"⟩,
       ⟨"MyTeam", "2021-09-01", "13"⟩] =
      [(⟨"Other Club", "2021-01-01", "12"⟩, Category.otherClub),
       (⟨"Unattached", "2021-06-01", "12"⟩, Category.probationary),
       (⟨"MyTeam", "2021-09-01", "13"⟩, Category.official)] := by
  decide

/-- The college/misc tail takes only those two values. -/
theorem collegeOrMisc_cases (s : Swim) :
    collegeOrMisc s = Category.college ∨ collegeOrMisc s = Category.miscUnattached := by
  unfold collegeOrMisc
  split
  · exact Or.inl rfl
  · exact Or.inr rfl

/-- Counterexample for C8: an unattached swim with unparsable date,
age 19 and `seen_other_club` still false is labelled College by the code,
not MiscUnattached as the claim states. -/
theorem unparsable_date_counterexample :
    pdToDatetime "garbage" = none ∧
    classifySwimmer ["MyTeam"]
      [⟨"Unattached", "garbage", "19"⟩, ⟨"MyTeam", "2021-09-01", "15"⟩] =
      [(⟨"Unattached", "garbage", "19"⟩, Category.college),
       (⟨"MyTeam", "2021-09-01", "15"⟩, Category.official)] ∧
    Category.college ≠ Category.miscUnattached := by
  decide

/-- Claim C8 as amended: an unattached swim with unparsable date is never
labelled Probationary; absent a high-school match it is labelled College
(ages 18-22, when the probationary branch does not apply) or
MiscUnattached; the parse failure is never fatal and the swim still gets
exactly one include/exclude decision. -/
theorem unparsable_date_safe (teamNames : List String) (ftIdx : Option ℕ)
    (ftDate : Option ℤ) (ds : DecisionSet) (seen : Bool) (idx : ℕ) (s : Swim)
    (hun : is_unattached s.team = true)
    (hd : pdToDatetime s.swimDate = none) :
    classifyCat teamNames ftIdx ftDate seen idx s ≠ Category.probationary
    ∧ (is_team_swim teamNames s.team = false → is_high_school s.team = false →
        (classifyCat teamNames ftIdx ftDate seen idx s = Category.college ∨
         classifyCat teamNames ftIdx ftDate seen idx s = Category.miscUnattached))
    ∧ (decisionOf ds (classifyCat teamNames ftIdx ftDate seen idx s) =
          Decision.includeSwim ↔
        ¬ decisionOf ds (classifyCat teamNames ftIdx ftDate seen idx s) =
          Decision.excludeSwim) := by
  refine ⟨?_, ?_, ?_⟩
  · by_cases ht : is_team_swim teamNames s.team
    · simp [classifyCat, ht]
    · by_cases hhs : is_high_school s.team
      · simp [classifyCat, ht, hun, hhs]
      · cases ftIdx with
        | none => simp [classifyCat, ht, hun, hhs, collegeOrMisc_ne_probationary]
        | some i =>
          cases ftDate with
          | none => simp [classifyCat, ht, hun, hhs, collegeOrMisc_ne_probationary]
          | some F =>
            simp only [classifyCat, ht, hun, hhs, Bool.false_eq_true, if_false,
              if_true, hd]
            split <;> simp [collegeOrMisc_ne_probationary]
  · intro ht hhs
    cases ftIdx with
    | none => simpa [classifyCat, ht, hun, hhs] using collegeOrMisc_cases s
    | some i =>
      cases ftDate with
      | none => simpa [classifyCat, ht, hun, hhs] using collegeOrMisc_cases s
      | some F =>
        simp only [classifyCat, ht, hun, hhs, Bool.false_eq_true, if_false,
          if_true, hd]
        split
        · exact Or.inr rfl
        · exact collegeOrMisc_cases s
  · cases hdd : decisionOf ds (classifyCat teamNames ftIdx ftDate seen idx s) <;>
      simp [hdd]

/-- Witness for C8: the amended statement applied to a concrete unattached
swim with an unparsable date inside the probationary branch. -/
theorem unparsable_date_safe_witness :
    classifyCat ["MyTeam"] (some 1) (some (daysFromCivil 2021 9 1)) true 0
      ⟨"Unattached", "garbage", "12"⟩ ≠ Category.probationary :=
  (unparsable_date_safe ["MyTeam"] (some 1) (some (daysFromCivil 2021 9 1))
      ⟨Decision.excludeSwim, Decision.includeSwim, Decision.excludeSwim,
        Decision.excludeSwim⟩ true 0 ⟨"Unattached", "garbage", "12"⟩
      (by decide) (by decide)).1

/-- Counterexample for C10: on a career whose first swim is unattached,
age 19, before any other-club swim, the statistics pass counts it
MiscUnattached while the classification pass labels it College, so the
per-category counts differ. -/
theorem analyze_classify_counterexample :
    analyzeCount ["MyTeam"]
      [⟨"Unattached", "2021-06-01", "19"⟩, ⟨"MyTeam", "2021-09-01", "15"⟩]
      Category.college = 0 ∧
    classifyCount ["MyTeam"]
      [⟨"Unattached", "2021-06-01", "19"⟩, ⟨"MyTeam", "2021-09-01", "15"⟩]
      Category.college = 1 ∧
    analyzeCount ["MyTeam"]
      [⟨"Unattached", "2021-06-01", "19"⟩, ⟨"MyTeam", "2021-09-01", "15"⟩]
      Category.miscUnattached = 1 ∧
    classifyCount ["MyTeam"]
      [⟨"Unattached", "2021-06-01", "19"⟩, ⟨"MyTeam", "2021-09-01", "15"⟩]
      Category.miscUnattached = 0 := by
  decide

/-- Claim C10 as amended: the statistics pass and the classification pass
assign the same category to an unattached swim — and update
`seen_other_club` identically — except in one corner: a college-age,
non-high-school unattached swim before the first team swim (with parsed
first-team date) while `seen_other_club` is still false, which
`_analyze_swims` counts as MiscUnattached but `_classify_swimmer` labels
College. -/
theorem analyze_matches_classify (teamNames : List String) (ftIdx : Option ℕ)
    (ftDate : Option ℤ) (seen : Bool) (idx : ℕ) (s : Swim)
    (hteam : is_team_swim teamNames s.team = false)
    (hun : is_unattached s.team = true)
    (hside : ¬ (seen = false ∧ is_high_school s.team = false ∧
        is_college_age s.age = true ∧
        ∃ i F, ftIdx = some i ∧ ftDate = some F ∧ idx < i)) :
    analyzeCat ftIdx ftDate seen idx s = classifyCat teamNames ftIdx ftDate seen idx s
    ∧ ∀ (tn2 : List String) (fi2 : Option ℕ) (seen2 : Bool) (j : ℕ) (s2 : Swim),
        analyzeNextSeen tn2 fi2 seen2 j s2 = nextSeen tn2 fi2 seen2 j s2 := by
  constructor
  · by_cases hhs : is_high_school s.team
    · simp [analyzeCat, classifyCat, hteam, hun, hhs]
    · cases ftIdx with
      | none => simp [analyzeCat, classifyCat, hteam, hun, hhs]
      | some i =>
        cases ftDate with
        | none => simp [analyzeCat, classifyCat, hteam, hun, hhs]
        | some F =>
          by_cases hlt : idx < i
          · cases hseen : seen with
            | true => simp [analyzeCat, classifyCat, hteam, hun, hhs, hlt]
            | false =>
              have hhs2 : is_high_school s.team = false := by
                simpa using hhs
              have hca : is_college_age s.age = false := by
                by_contra hca
                exact hside ⟨hseen, hhs2,
                  by simpa using hca, i, F, rfl, rfl, hlt⟩
              simp [analyzeCat, classifyCat, hteam, hun, hhs, hlt, hca,
                collegeOrMisc]
          · simp [analyzeCat, classifyCat, hteam, hun, hhs, hlt]
  · intro tn2 fi2 seen2 j s2
    unfold analyzeNextSeen nextSeen
    by_cases h1 : is_team_swim tn2 s2.team
    · simp [h1]
    · by_cases h2 : is_unattached s2.team
      · simp [h1, h2]
      · cases h3 : trimL s2.team.toList with
        | nil => simp [h1, h2, h3]
        | cons a t => simp [h1, h2, h3]

/-- Witness for C10: both passes label a concrete probationary-window swim
identically once `seen_other_club` is set. -/
theorem analyze_matches_classify_witness :
    analyzeCat (some 1) (some (daysFromCivil 2021 9 1)) true 0
      ⟨"Unattached", "2021-06-01", "12"⟩ =
    classifyCat ["MyTeam"] (some 1) (some (daysFromCivil 2021 9 1)) true 0
      ⟨"Unattached", "2021-06-01", "12"⟩ :=
  (analyze_matches_classify ["MyTeam"] (some 1) (some (daysFromCivil 2021 9 1))
      true 0 ⟨"Unattached", "2021-06-01", "12"⟩ (by decide) (by decide)
      (by intro hc; exact absurd hc.1 (by decide))).1

/-- `timeLeB` is reflexive. -/
theorem timeLeB_refl (x : Option ℚ) : timeLeB x x = true := by
  cases x with
  | none => rfl
  | some a => simp [timeLeB]

/-- `timeLeB` is total. -/
theorem timeLeB_total (x y : Option ℚ) :
    timeLeB x y = true ∨ timeLeB y x = true := by
  cases x with
  | none => cases y with
    | none => exact Or.inl rfl
    | some b => exact Or.inr rfl
  | some a => cases y with
    | none => exact Or.inl rfl
    | some b =>
      rcases le_total a b with h | h
      · exact Or.inl (by simpa [timeLeB] using h)
      · exact Or.inr (by simpa [timeLeB] using h)

/-- `timeLeB` is transitive. -/
theorem timeLeB_trans {x y z : Option ℚ} (h1 : timeLeB x y = true)
    (h2 : timeLeB y z = true) : timeLeB x z = true := by
  cases x with
  | none => cases y with
    | none => cases z with
      | none => rfl
      | some c => exact absurd h2 (by simp [timeLeB])
    | some b => exact absurd h1 (by simp [timeLeB])
  | some a => cases z with
    | none => rfl
    | some c =>
      cases y with
      | none => exact absurd h2 (by simp [timeLeB])
      | some b =>
        simp only [timeLeB, decide_eq_true_eq] at h1 h2 ⊢
        exact le_trans h1 h2

/-- `rowLe` is reflexive. -/
theorem rowLe_refl (a : ℕ × RawSwim) : rowLe a a = true := timeLeB_refl _

/-- `rowLe` is total. -/
theorem rowLe_total (a b : ℕ × RawSwim) :
    rowLe a b = true ∨ rowLe b a = true := timeLeB_total _ _

/-- `rowLe` is transitive. -/
theorem rowLe_trans {a b c : ℕ × RawSwim} (h1 : rowLe a b = true)
    (h2 : rowLe b c = true) : rowLe a c = true := timeLeB_trans h1 h2

/-- Inserting permutes. -/
theorem insertRow_perm (a : ℕ × RawSwim) (l : List (ℕ × RawSwim)) :
    (insertRow a l).Perm (a :: l) := by
  induction l with
  | nil => exact List.Perm.refl _
  | cons b t ih =>
    unfold insertRow
    split
    · exact List.Perm.refl _
    · exact ((ih.cons b).trans (List.Perm.swap a b t))

/-- Sorting permutes. -/
theorem sortRows_perm (l : List (ℕ × RawSwim)) : (sortRows l).Perm l := by
  induction l with
  | nil => exact List.Perm.refl _
  | cons a t ih => exact (insertRow_perm a (sortRows t)).trans (ih.cons a)

/-- Membership is preserved by sorting. -/
theorem mem_sortRows {x : ℕ × RawSwim} {l : List (ℕ × RawSwim)} :
    x ∈ sortRows l ↔ x ∈ l := (sortRows_perm l).mem_iff

/-- Inserting below all strictly larger indices preserves the sort
invariant. -/
theorem pairwise_insertRow (a : ℕ × RawSwim) (l : List (ℕ × RawSwim))
    (hl : l.Pairwise rowQ) (ha : ∀ b ∈ l, a.1 < b.1) :
    (insertRow a l).Pairwise rowQ := by
  induction l with
  | nil => exact List.pairwise_singleton _ _
  | cons b t ih =>
    rcases List.pairwise_cons.mp hl with ⟨hb, ht⟩
    unfold insertRow
    split
    · rename_i hle
      refine List.pairwise_cons.mpr ⟨?_, hl⟩
      intro x hx
      rcases List.mem_cons.mp hx with rfl | hxt
      · exact ⟨hle, fun _ => ha x (List.mem_cons_self _ _)⟩
      · exact ⟨rowLe_trans hle (hb x hxt).1, fun _ => ha x (List.mem_cons.mpr (Or.inr hxt))⟩
    · rename_i hnle
      refine List.pairwise_cons.mpr ⟨?_, ?_⟩
      · intro x hx
        rcases List.mem_cons.mp ((insertRow_perm a t).mem_iff.mp hx) with hxa | hxt
        · rw [hxa]
          refine ⟨?_, fun hab => absurd hab hnle⟩
          rcases rowLe_total a b with h | h
          · exact absurd h hnle
          · exact h
        · exact hb x hxt
      · exact ih ht (fun x hx => ha x (List.mem_cons.mpr (Or.inr hx)))

/-- Sorting a list of strictly increasing indices yields the sort
invariant: ascending times with ties in original order. -/
theorem pairwise_sortRows (l : List (ℕ × RawSwim))
    (hl : l.Pairwise (fun a b => a.1 < b.1)) :
    (sortRows l).Pairwise rowQ := by
  induction l with
  | nil => exact List.Pairwise.nil
  | cons a t ih =>
    rcases List.pairwise_cons.mp hl with ⟨ha, ht⟩
    exact pairwise_insertRow a (sortRows t) (ih ht)
      (fun b hb => ha b (mem_sortRows.mp hb))

/-- Index-increasing invariant of `indexed`. -/
theorem indexed_fst_le (rows : List RawSwim) :
    ∀ (n : ℕ), ∀ p ∈ indexed n rows, n ≤ p.1 := by
  induction rows with
  | nil => intro n p hp; simp [indexed] at hp
  | cons r t ih =>
    intro n p hp
    rcases List.mem_cons.mp hp with hpr | hpt
    · rw [hpr]
    · exact le_trans (Nat.le_succ n) (ih (n + 1) p hpt)

/-- `indexed` rows carry strictly increasing original indices. -/
theorem indexed_pairwise (rows : List RawSwim) :
    ∀ n : ℕ, (indexed n rows).Pairwise (fun a b => a.1 < b.1) := by
  induction rows with
  | nil => intro n; exact List.Pairwise.nil
  | cons r t ih =>
    intro n
    refine List.pairwise_cons.mpr ⟨?_, ih (n + 1)⟩
    intro p hp
    exact lt_of_lt_of_le (Nat.lt_succ_self n) (indexed_fst_le t (n + 1) p hp)

/-- The per-event bucket keeps strictly increasing original indices. -/
theorem eventRows_pairwise (rows : List RawSwim) (course ev : String) :
    (eventRows rows course ev).Pairwise (fun a b => a.1 < b.1) :=
  (((indexed_pairwise rows 0).sublist (List.filter_sublist _)).sublist
      (List.filter_sublist _)).sublist (List.filter_sublist _)

/-- Deduplication keeps a sublist. -/
theorem dropDupNames_sublist :
    ∀ (seen : List String) (l : List (ℕ × RawSwim)),
      (dropDupNames seen l).Sublist l := by
  intro seen l
  induction l generalizing seen with
  | nil => exact List.Sublist.refl _
  | cons r t ih =>
    unfold dropDupNames
    split
    · exact (ih seen).trans (List.sublist_cons_of_sublist r (List.Sublist.refl t))
    · exact (ih (r.2.Name :: seen)).cons₂ r

/-- A deduplicated element came from the list and its name was unseen. -/
theorem mem_dropDupNames :
    ∀ (seen : List String) (l : List (ℕ × RawSwim)) (x : ℕ × RawSwim),
      x ∈ dropDupNames seen l → x ∈ l ∧ x.2.Name ∉ seen := by
  intro seen l
  induction l generalizing seen with
  | nil => intro x hx; simp [dropDupNames] at hx
  | cons r t ih =>
    intro x hx
    unfold dropDupNames at hx
    by_cases hr : r.2.Name ∈ seen
    · rw [if_pos hr] at hx
      rcases ih seen x hx with ⟨h1, h2⟩
      exact ⟨List.mem_cons.mpr (Or.inr h1), h2⟩
    · rw [if_neg hr] at hx
      rcases List.mem_cons.mp hx with hxr | hxt
      · exact ⟨List.mem_cons.mpr (Or.inl hxr), by rw [hxr]; exact hr⟩
      · rcases ih (r.2.Name :: seen) x hxt with ⟨h1, h2⟩
        exact ⟨List.mem_cons.mpr (Or.inr h1),
          fun hs => h2 (List.mem_cons.mpr (Or.inr hs))⟩

/-- Deduplication leaves pairwise distinct names. -/
theorem dropDupNames_names :
    ∀ (seen : List String) (l : List (ℕ × RawSwim)),
      (dropDupNames seen l).Pairwise (fun a b => a.2.Name ≠ b.2.Name) := by
  intro seen l
  induction l generalizing seen with
  | nil => exact List.Pairwise.nil
  | cons r t ih =>
    unfold dropDupNames
    split
    · exact ih seen
    · refine List.pairwise_cons.mpr ⟨?_, ih (r.2.Name :: seen)⟩
      intro x hx
      have h2 := (mem_dropDupNames (r.2.Name :: seen) t x hx).2
      intro heq
      exact h2 (by rw [← heq]; exact List.mem_cons_self _ _)

/-- On a time-sorted list, deduplication keeps each name's fastest row. -/
theorem dropDupNames_min :
    ∀ (seen : List String) (l : List (ℕ × RawSwim)),
      l.Pairwise (fun a b => rowLe a b = true) →
      ∀ e ∈ dropDupNames seen l, ∀ r ∈ l, r.2.Name = e.2.Name →
        rowLe e r = true := by
  intro seen l
  induction l generalizing seen with
  | nil => intro _ e he; simp [dropDupNames] at he
  | cons x t ih =>
    intro hl e he r hr hname
    rcases List.pairwise_cons.mp hl with ⟨hx, ht⟩
    unfold dropDupNames at he
    by_cases hseen : x.2.Name ∈ seen
    · rw [if_pos hseen] at he
      have h2 := (mem_dropDupNames seen t e he).2
      rcases List.mem_cons.mp hr with hrx | hrt
      · exfalso
        apply h2
        rw [← hname, hrx]
        exact hseen
      · exact ih seen ht e he r hrt hname
    · rw [if_neg hseen] at he
      rcases List.mem_cons.mp he with hex | het
      · rcases List.mem_cons.mp hr with hrx | hrt
        · rw [hex, hrx]; exact rowLe_refl x
        · rw [hex]; exact hx r hrt
      · have h2 := (mem_dropDupNames (x.2.Name :: seen) t e het).2
        rcases List.mem_cons.mp hr with hrx | hrt
        · exfalso
          apply h2
          rw [← hname, hrx]
          exact List.mem_cons_self _ _
        · exact ih (x.2.Name :: seen) ht e het r hrt hname

/-- Deduplicating with nothing seen keeps the head. -/
theorem dropDupNames_nil_head (l : List (ℕ × RawSwim)) :
    (dropDupNames [] l).head? = l.head? := by
  cases l with
  | nil => rfl
  | cons r t => simp [dropDupNames]

/-- Properties of the per-event top-N list that do not depend on the tie
order of `sort_values`: pairwise distinct swimmer names, at most `n`
entries, each entry the fastest finite-time swim of its swimmer in the
event bucket, and ascending times.  (The spec's stable tie-break clause is
not provable from the source, which sorts with pandas' default unstable
quicksort.) -/
theorem get_top_n_props (rows : List RawSwim) (course ev : String) (n : ℕ) :
    (get_top_n_by_event rows course ev n).Pairwise
        (fun a b => a.2.Name ≠ b.2.Name)
    ∧ (get_top_n_by_event rows course ev n).length ≤ n
    ∧ (∀ e ∈ get_top_n_by_event rows course ev n,
        e ∈ eventRows rows course ev ∧
        ∀ r ∈ eventRows rows course ev, r.2.Name = e.2.Name →
          timeLeB (timeSec e) (timeSec r) = true)
    ∧ (get_top_n_by_event rows course ev n).Pairwise
        (fun a b => timeLeB (timeSec a) (timeSec b) = true) := by
  have hQ : (sortRows (eventRows rows course ev)).Pairwise rowQ :=
    pairwise_sortRows _ (eventRows_pairwise rows course ev)
  have hle : (sortRows (eventRows rows course ev)).Pairwise
      (fun a b => rowLe a b = true) :=
    hQ.imp (fun h => h.1)
  have hsub : (get_top_n_by_event rows course ev n).Sublist
      (dropDupNames [] (sortRows (eventRows rows course ev))) :=
    List.take_sublist _ _
  have hsub2 : (get_top_n_by_event rows course ev n).Sublist
      (sortRows (eventRows rows course ev)) :=
    hsub.trans (dropDupNames_sublist [] _)
  refine ⟨?_, ?_, ?_, ?_⟩
  · exact (dropDupNames_names [] _).sublist hsub
  · exact List.length_take_le n _
  · intro e he
    have hed : e ∈ dropDupNames [] (sortRows (eventRows rows course ev)) :=
      hsub.mem he
    have hes : e ∈ eventRows rows course ev :=
      mem_sortRows.mp (mem_dropDupNames [] _ e hed).1
    refine ⟨hes, ?_⟩
    intro r hr hname
    exact dropDupNames_min [] _ hle e hed r (mem_sortRows.mpr hr) hname
  · exact (hle.sublist hsub2).imp (fun h => h)

/-- The (event, age-group) bucket keeps strictly increasing indices. -/
theorem ageRows_pairwise (rows : List RawSwim) (course ev ag : String) :
    (ageRows rows course ev ag).Pairwise (fun a b => a.1 < b.1) := by
  unfold ageRows
  split
  · exact eventRows_pairwise rows course ev
  · exact (eventRows_pairwise rows course ev).sublist (List.filter_sublist _)

/-- Bucket members all carry finite times. -/
theorem ageRows_finite (rows : List RawSwim) (course ev ag : String) :
    ∀ r ∈ ageRows rows course ev ag, finiteTime (timeSec r) = true := by
  intro r hr
  have hev : r ∈ eventRows rows course ev := by
    unfold ageRows at hr
    split at hr
    · exact hr
    · exact (List.mem_filter.mp hr).1
  simp only [eventRows, finiteRows, List.mem_filter] at hev
  exact hev.1.2

/-- A bucket swim with finite time survives the aggregator's filters. -/
theorem mem_ageRows_of_bucket (rows : List RawSwim) (course ev ag : String)
    (r : ℕ × RawSwim) (hr : r ∈ ageBucketAll rows course ev ag)
    (hf : finiteTime (timeSec r) = true) :
    r ∈ ageRows rows course ev ag := by
  simp only [ageBucketAll, List.mem_filter, Bool.and_eq_true,
    Bool.or_eq_true] at hr
  rcases hr with ⟨hmem, ⟨hcourse, hcode⟩, hag⟩
  have hev : r ∈ eventRows rows course ev := by
    simp only [eventRows, finiteRows, courseRows, List.mem_filter]
    exact ⟨⟨⟨hmem, hcourse⟩, hf⟩, hcode⟩
  unfold ageRows
  split
  · exact hev
  · rename_i hopen
    refine List.mem_filter.mpr ⟨hev, ?_⟩
    rcases hag with hopen2 | hagr
    · exact absurd (by simpa using hopen2) hopen
    · exact hagr

/-- Claim C7: when `get_best_times_by_event` returns an entry for an
(event, age-group) cell, that entry is a finite-time bucket swim whose
time-in-seconds is ≤ every other swim of the bucket (infinite times
included, since those are discarded before ranking); every ranked bucket
row has finite time; and the "Open" group aggregates across all ages. -/
theorem best_time_correct (rows : List RawSwim) (course ev ag : String)
    (e : ℕ × RawSwim)
    (h : get_best_time rows course ev ag = some e) :
    e ∈ ageRows rows course ev ag
    ∧ (∀ r ∈ ageRows rows course ev ag, timeLeB (timeSec e) (timeSec r) = true)
    ∧ (∀ r ∈ ageBucketAll rows course ev ag,
        timeLeB (timeSec e) (timeSec r) = true)
    ∧ (∀ r ∈ ageRows rows course ev ag, finiteTime (timeSec r) = true)
    ∧ ageRows rows course ev "Open" = eventRows rows course ev := by
  have hhead : (sortRows (ageRows rows course ev ag)).head? = some e := by
    rw [← dropDupNames_nil_head]
    exact h
  cases hsr : sortRows (ageRows rows course ev ag) with
  | nil => rw [hsr] at hhead; simp at hhead
  | cons x tl =>
    rw [hsr] at hhead
    simp only [List.head?_cons, Option.some.injEq] at hhead
    have hQ : (sortRows (ageRows rows course ev ag)).Pairwise rowQ :=
      pairwise_sortRows _ (ageRows_pairwise rows course ev ag)
    rw [hsr, hhead] at hQ
    rcases List.pairwise_cons.mp hQ with ⟨hx, _⟩
    have hmemE : e ∈ ageRows rows course ev ag := by
      apply mem_sortRows.mp
      rw [hsr, hhead]
      exact List.mem_cons_self _ _
    have hminA : ∀ r ∈ ageRows rows course ev ag,
        timeLeB (timeSec e) (timeSec r) = true := by
      intro r hr
      have hrs : r ∈ sortRows (ageRows rows course ev ag) := mem_sortRows.mpr hr
      rw [hsr, hhead] at hrs
      rcases List.mem_cons.mp hrs with hre | hrt
      · rw [hre]; exact timeLeB_refl _
      · exact (hx r hrt).1
    refine ⟨hmemE, hminA, ?_, ageRows_finite rows course ev ag,
      by simp [ageRows]⟩
    intro r hr
    cases hrt : timeSec r with
    | none =>
      have hfe := ageRows_finite rows course ev ag e hmemE
      cases hte : timeSec e with
      | none => rw [hte] at hfe; exact absurd hfe (by simp [finiteTime])
      | some q => rfl
    | some q =>
      have hfr : finiteTime (timeSec r) = true := by rw [hrt]; rfl
      have hres := hminA r (mem_ageRows_of_bucket rows course ev ag r hr hfr)
      rw [hrt] at hres
      exact hres

/-- Witness for C7 on a one-row official set. -/
theorem best_time_correct_witness :
    (0, (⟨"Jane", "50 FR SCY", "21", "12"⟩ : RawSwim)) ∈
      ageRows [⟨"Jane", "50 FR SCY", "21", "12"⟩] "scy" "50-free" "Open" :=
  (best_time_correct [⟨"Jane", "50 FR SCY", "21", "12"⟩] "scy" "50-free"
      "Open" (0, ⟨"Jane", "50 FR SCY", "21", "12"⟩) (by decide)).1
